import Mathlib

/-!
Verification development for the `quasar-ecs` storage core
(archetype-based entity component system).

The Rust sources are shallowly embedded as executable Lean functions:

* `Vec<T>` becomes `List T`; `Vec::swap_remove` becomes `List.swapRemove`.
* Machine integers become `Nat`.  The `u32` sentinel values
  (`EntityGeneration::INVALID`, `ArchetypeId::INVALID`, `TableRow::INVALID`,
  all equal to `u32::MAX`) are modelled by `u32Max = 2 ^ 32 - 1`, and the
  generation increment (which aborts on `u32` overflow) is modelled as a
  guarded operation.  Index-counter overflows (`ArchetypeId`, `TableId`,
  `BundleId`, entity index), which merely abort allocation of fresh ids,
  are not claim-relevant and indices are kept as unbounded `Nat`.
* Fallible code (Rust `panic!`-style aborts: slice indexing out of bounds,
  `assert!`, `Option::unwrap`, explicit aborts) is modelled with
  `Except Err`.
* The `HashMap`-backed containers (the component, bundle, table-key and
  archetype-key registries) are embedded as association lists (`lookup`
  below).  Every `SparseMap` / `ImmutableSparseMap` / `SparseSet` /
  `ImmutableSparseSet` is embedded faithfully as `SparseMapM` (sets as
  `SparseMapM Unit`), including the defective vacant insert, so the world
  operations abort exactly where the sources do.  `SparseMap` iteration
  order is ascending key order (`SparseMapM.toPairs`).
* Component values are modelled as `Nat` (`Val`); a component type is
  identified by a `Nat` (`CompType`) standing for the Rust `TypeId`, with
  `compTypeName` standing for `type_name`.  Type-erased column cells
  become plain values.

Definitions referenced as "Modelled from the spec" translate items that
are used by the sources but whose definitions are absent from the crate
(`EntityLocation::EMPTY`, `ChangedLocation::apply`, `BlobVec` and the
`Column::forget_item` / `Column::take_item_and_remove_later` methods).
-/

/-- The largest `u32`, used by the sources as the `INVALID` sentinel for
generations, ids and rows. -/
def u32Max : Nat := 2 ^ 32 - 1

/-- Association-list lookup; the embedding of the map interface
(`HashMap::get` / `SparseMap::get`).  Later insertions are consed in
front, so lookup returns the most recent binding. -/
def lookup {κ α : Type} [DecidableEq κ] : List (κ × α) → κ → Option α
  | [], _ => none
  | p :: rest, k => if p.1 = k then some p.2 else lookup rest k

/-- Replace the binding of `k` (if present) by applying `f`. -/
def updateAt {κ α : Type} [DecidableEq κ] (l : List (κ × α)) (k : κ) (f : α → α) :
    List (κ × α) :=
  l.map (fun p => if p.1 = k then (p.1, f p.2) else p)

/-- `Vec::swap_remove`: move the last element into slot `i` and pop the
last slot.  Callers guarantee `i` is in bounds. -/
def List.swapRemove {α : Type} (l : List α) (i : Nat) : List α :=
  match l.getLast? with
  | none => l
  | some x => (l.set i x).dropLast

/-- The error outcomes of the embedded code; each constructor corresponds
to one family of Rust aborts. -/
inductive Err where
  /-- slice/Vec index out of bounds (including `split_at_mut` with an
  out-of-range midpoint). -/
  | oob
  /-- a failed `assert!` / `assert_eq!`. -/
  | assertFail
  /-- `Option::unwrap` / `expect` on `None`. -/
  | unwrapNone
  /-- `MoveRowPanicUnmatched`: an unmatched column during an insert move. -/
  | panicUnmatched
  /-- `InsertIntoTable::write_column` on a column the table does not have. -/
  | writeMissingColumn
  /-- `EntityGeneration::increment` overflow abort. -/
  | genOverflow
  /-- `Tables::insert` on a component-id set that already has a table. -/
  | tableExists
  /-- bundle registration abort, carrying the names of the duplicated
  components listed in the diagnostic. -/
  | dupBundle (names : List String)
deriving DecidableEq

/-! ## Entities (`src/quasar-ecs/src/entity.rs`) -/

/-- A 64-bit entity handle: 32-bit index plus 32-bit nonzero generation. -/
structure Entity where
  index : Nat
  generation : Nat
deriving DecidableEq

instance : Inhabited Entity := ⟨⟨0, 0⟩⟩

/-- `EntityLocation`: where a live entity's data lives. -/
structure EntityLocation where
  archetype_id : Nat
  archetype_row : Nat
  table_id : Nat
  table_row : Nat
deriving DecidableEq

/-- `EntityLocation::INVALID`: every field is the `u32::MAX` sentinel. -/
def EntityLocation.INVALID : EntityLocation :=
  ⟨u32Max, u32Max, u32Max, u32Max⟩

/-- Modelled from the spec: `EntityLocation::EMPTY` is used by
`World::spawn_empty` (world.rs line 108) but its definition is missing
from the sources.  Per spec section 4.8 a fresh entity has an "invalid
location", and the operation paths special-case invalid *rows*
(`Table::move_row`, `Archetype::remove_entity`) while indexing the
archetype/table ids unconditionally, so `EMPTY` must carry the empty
archetype id 0 and empty table id 0 with invalid rows. -/
def EntityLocation.EMPTY : EntityLocation :=
  ⟨0, u32Max, 0, u32Max⟩

/-- Per-index entity metadata. -/
structure EntityMeta where
  generation : Nat
  location : EntityLocation
deriving DecidableEq

/-- `EntityMeta::EMPTY`: sentinel generation (`EntityGeneration::INVALID`,
i.e. `u32::MAX`) and invalid location. -/
def EntityMeta.EMPTY : EntityMeta :=
  ⟨u32Max, EntityLocation.INVALID⟩

instance : Inhabited EntityMeta := ⟨EntityMeta.EMPTY⟩

/-- The entity allocator: generational index pool. -/
structure Entities where
  meta : List EntityMeta
  free_list : List Entity
deriving DecidableEq

/-- `Entities::allocate`.  Pops the free list (incrementing the
generation, aborting on `u32` overflow — modelled as `none`) or appends a
fresh metadata slot with generation `NEW = 1`. -/
def Entities.allocate (s : Entities) : Option (Entity × Entities) :=
  match s.free_list with
  | e :: rest =>
      if e.generation + 1 ≤ u32Max then
        some (⟨e.index, e.generation + 1⟩, ⟨s.meta, rest⟩)
      else
        none
  | [] =>
      some (⟨s.meta.length, 1⟩, ⟨s.meta ++ [EntityMeta.EMPTY], []⟩)

/-- `Entities::free`.  Indexing `meta[entity.index]` aborts when out of
bounds (`none`).  On a generation match the slot is emptied and the
handle pushed on the free list (result flag `true`); on a mismatch the
code asserts the handle is older and does nothing (flag `false`). -/
def Entities.free (s : Entities) (e : Entity) : Option (Entities × Bool) :=
  match s.meta.get? e.index with
  | none => none
  | some m =>
      if m.generation = e.generation then
        some (⟨s.meta.set e.index EntityMeta.EMPTY, e :: s.free_list⟩, true)
      else if e.generation < m.generation then
        some (s, false)
      else
        none

/-- `Entities::set_location`: writes the handle's generation and the
location into the slot; aborts (`none`) when the index is out of
bounds. -/
def Entities.set_location (s : Entities) (e : Entity) (l : EntityLocation) :
    Option Entities :=
  if e.index < s.meta.length then
    some ⟨s.meta.set e.index ⟨e.generation, l⟩, s.free_list⟩
  else
    none

/-- `Entities::get_location`: `None` for an out-of-range index; the
location iff the generations match; otherwise asserts the handle is
older than the slot and returns `None` (a failed assert is `.error`). -/
def Entities.get_location (s : Entities) (e : Entity) :
    Except Err (Option EntityLocation) :=
  match s.meta.get? e.index with
  | none => .ok none
  | some m =>
      if e.generation = m.generation then .ok (some m.location)
      else if e.generation < m.generation then .ok none
      else .error .assertFail

/-- `Entities::clear`. -/
def Entities.clear (_s : Entities) : Entities := ⟨[], []⟩

/-- Modelled from the spec: `ChangedLocation<TableRow>::apply`
(`ChangedLocation` is used by world.rs and archetype.rs but missing from
the sources).  Per spec section 4.7 step 4 it rewrites the swapped-up
entity's stored `table_row`. -/
def Entities.rewrite_table_row (s : Entities) (e : Entity) (r : Nat) :
    Option Entities :=
  match s.meta.get? e.index with
  | none => none
  | some m =>
      some ⟨s.meta.set e.index ⟨m.generation, { m.location with table_row := r }⟩,
        s.free_list⟩

/-- Modelled from the spec: `ChangedLocation<ArchetypeRow>::apply`; per
spec section 4.7 step 5 it rewrites the swapped-up entity's stored
`archetype_row`. -/
def Entities.rewrite_archetype_row (s : Entities) (e : Entity) (r : Nat) :
    Option Entities :=
  match s.meta.get? e.index with
  | none => none
  | some m =>
      some ⟨s.meta.set e.index ⟨m.generation, { m.location with archetype_row := r }⟩,
        s.free_list⟩

/-! ## The sparse map implementation (`src/quasar-ecs/src/util/sparse_map.rs`)

Embedded faithfully: backing vector of options plus a tracked length.
`SparseMap` and `ImmutableSparseMap` share this value-level state (the
immutable variant only freezes the backing vector), and `SparseSet` /
`ImmutableSparseSet` wrap a map with unit values, so one structure covers
all four containers. -/

/-- `SparseMap<K, V>`: direct-indexed storage, values as "empty or
present", size tracked separately. -/
structure SparseMapM (V : Type) where
  values : List (Option V)
  len : Nat
deriving DecidableEq

/-- `SparseMap::new` / `with_capacity` (capacity does not affect the
logical state: the backing vector has length 0). -/
def SparseMapM.new {V : Type} : SparseMapM V := ⟨[], 0⟩

/-- `SparseMap::get`. -/
def SparseMapM.get {V : Type} (m : SparseMapM V) (k : Nat) : Option V :=
  match m.values.get? k with
  | some (some v) => some v
  | _ => none

/-- `VacantEntry::insert`: grows the backing vector only when
`index > len` and only up to length `index`, then writes `values[index]`
— which therefore always indexes out of bounds (modelled as `.error`).
This is the faithful embedding of sparse_map.rs lines 277–289. -/
def SparseMapM.vacantInsert {V : Type} (m : SparseMapM V) (k : Nat) (v : V) :
    Except Err (SparseMapM V) :=
  let values :=
    if k > m.values.length then
      m.values ++ List.replicate (k - m.values.length) none
    else
      m.values
  if k < values.length then
    .ok ⟨values.set k (some v), m.len + 1⟩
  else
    .error .oob

/-- `SparseMap::insert` via `entry(key).insert(value)`: replaces the value
of an occupied entry, otherwise takes the vacant path. -/
def SparseMapM.insert {V : Type} (m : SparseMapM V) (k : Nat) (v : V) :
    Except Err (Option V × SparseMapM V) :=
  match m.values.get? k with
  | some (some old) =>
      .ok (some old, ⟨m.values.set k (some v), m.len⟩)
  | _ =>
      (m.vacantInsert k v).map (fun m' => (none, m'))

/-- `SparseMap::contains_key` / `ImmutableSparseSet::contains`. -/
def SparseMapM.contains {V : Type} (m : SparseMapM V) (k : Nat) : Bool :=
  (m.get k).isSome

/-- The map's entry list in iteration order: `Iter` / `Keys` walk the
backing vector by ascending index, skipping empty slots. -/
def SparseMapM.toPairs {V : Type} (m : SparseMapM V) : List (Nat × V) :=
  m.values.enum.filterMap (fun p => p.2.map (fun v => (p.1, v)))

/-- `SparseMap::keys` / `ImmutableSparseMap::keys` in iteration order. -/
def SparseMapM.keys {V : Type} (m : SparseMapM V) : List Nat :=
  m.toPairs.map Prod.fst

/-- `OccupiedEntry` mutation reached through `get_mut` /
`get_column_mut`: in-place replacement of the value of a key that is
present (`values[index]` cannot then index out of bounds; the callers
below use it only on keys they have just looked up). -/
def SparseMapM.setVal {V : Type} (m : SparseMapM V) (k : Nat) (v : V) :
    SparseMapM V :=
  ⟨m.values.set k (some v), m.len⟩

/-- `SparseSet::insert` (`SparseSet<K>` wraps `SparseMap<K, ()>` and
inserts the unit value). -/
def SparseSetM.insertKey (s : SparseMapM Unit) (k : Nat) :
    Except Err (SparseMapM Unit) :=
  (SparseMapM.insert s k ()).map Prod.snd

/-- The loop of `FromIterator for SparseSet`: insert each element in
turn. -/
def SparseSetM.collectFrom (s : SparseMapM Unit) :
    List Nat → Except Err (SparseMapM Unit)
  | [] => .ok s
  | k :: ks => do
      let s' ← SparseSetM.insertKey s k
      SparseSetM.collectFrom s' ks

/-- `collect::<ImmutableSparseSet<_>>()` (`FromIterator` for
`SparseSet` / `ImmutableSparseSet`): fold the inserts over a fresh set,
so the first element of a non-empty iterator already takes the defective
vacant path. -/
def SparseSetM.collect (ks : List Nat) : Except Err (SparseMapM Unit) :=
  SparseSetM.collectFrom SparseMapM.new ks

/-! ## Components (`src/quasar-ecs/src/component.rs`) -/

/-- Component values are modelled as naturals. -/
abbrev Val := Nat

/-- A component's static type identity (the Rust `TypeId`). -/
abbrev CompType := Nat

/-- Stands for `std::any::type_name` of a component type. -/
def compTypeName (t : CompType) : String := "Component" ++ toString t

/-- `ComponentInfo`, reduced to the claim-relevant data: the assigned id
and the descriptor's name.  (Layout, storage class and the drop function
govern byte-level behaviour that the value-level model does not
distinguish.) -/
structure ComponentInfoM where
  id : Nat
  name : String
deriving DecidableEq

instance : Inhabited ComponentInfoM := ⟨⟨0, ""⟩⟩

/-- The component registry: infos indexed by id, plus the type-identity
map (`TypeIdMap`, a hash map, embedded as an association list). -/
structure Components where
  infos : List ComponentInfoM
  by_type : List (CompType × Nat)
deriving DecidableEq

/-- `Components::register`: idempotent; assigns the next id on first
sight and records the descriptor (here: the type name). -/
def Components.register (c : Components) (t : CompType) : Nat × Components :=
  match lookup c.by_type t with
  | some i => (i, c)
  | none =>
      let i := c.infos.length
      (i, ⟨c.infos ++ [⟨i, compTypeName t⟩], (t, i) :: c.by_type⟩)

/-- `Components::get_component_info` (callers guarantee the id is in
range). -/
def Components.get_component_info (c : Components) (i : Nat) : ComponentInfoM :=
  c.infos.getD i default

/-- The component-registration pass of bundle registration:
`B::component_types(RegisterComponents::new(..))` registers each declared
component type in declared order and pushes its id into the buffer. -/
def registerAll (c : Components) : List CompType → List Nat × Components
  | [] => ([], c)
  | t :: ts =>
      let (i, c') := c.register t
      let (is, c'') := registerAll c' ts
      (i :: is, c'')

/-! ## `partition_dedup` (`src/quasar-ecs/src/util/mod.rs` lines 43–65)

The source runs an in-place read/write two-pointer loop over a slice:
an element equal to the last kept element is displaced towards the tail,
any other element is kept.  The list-level rendering below produces the
same kept prefix and the same collection of displaced duplicates (the
sources only consume the duplicate partition as a `HashSet`, so only its
membership is observable). -/

/-- The loop body: `last` is the last kept element (`slice[write - 1]`). -/
def pdGo : Nat → List Nat → List Nat × List Nat
  | _, [] => ([], [])
  | last, x :: xs =>
      if x ≠ last then
        let (l, r) := pdGo x xs
        (x :: l, r)
      else
        let (l, r) := pdGo last xs
        (l, x :: r)

/-- `partition_dedup`: splits a slice into the deduplicated prefix and
the displaced duplicates. -/
def partitionDedup : List Nat → List Nat × List Nat
  | [] => ([], [])
  | x :: xs =>
      let (l, r) := pdGo x xs
      (x :: l, r)

/-! ## Bundles (`src/quasar-ecs/src/bundle.rs`) -/

/-- `BundleInfo`: assigned id and the sorted component-id list.  (The
stored bundle name is never consumed by the embedded operations.) -/
structure BundleInfo where
  id : Nat
  component_ids : List Nat
deriving DecidableEq

instance : Inhabited BundleInfo := ⟨⟨0, []⟩⟩

/-- The bundle registry.  A bundle's static type is identified by its
declared component-type sequence. -/
structure Bundles where
  bundle_infos : List BundleInfo
  by_type : List (List CompType × Nat)
deriving DecidableEq

/-- `Bundles::get_mut_or_insert_inner` (with the static/dynamic
`component_types` callback already applied): on first sight of the bundle
type, register its component types, sort the id buffer, partition out
duplicates, abort with the duplicate names if any (collected through a
`HashSet` — modelled by `dedup` — and resolved through the registry),
else store the sorted ids as the new `BundleInfo`. -/
def Bundles.get_mut_or_insert (b : Bundles) (ty : List CompType) (c : Components) :
    Except (List String) (BundleInfo × Bundles × Components) :=
  match lookup b.by_type ty with
  | some i => .ok (b.bundle_infos.getD i default, b, c)
  | none =>
      let idx := b.bundle_infos.length
      let (buf, c') := registerAll c ty
      let sortedBuf := List.insertionSort (· ≤ ·) buf
      let dups := (partitionDedup sortedBuf).2
      if dups = [] then
        let bi : BundleInfo := ⟨idx, sortedBuf⟩
        .ok (bi, ⟨b.bundle_infos ++ [bi], (ty, idx) :: b.by_type⟩, c')
      else
        .error ((dups.dedup).map (fun i => (c'.get_component_info i).name))

/-! ## Tables (`src/quasar-ecs/src/storage/table.rs`) -/

/-- A table: columns keyed by component id in an `ImmutableSparseMap`,
and the parallel entity list.  A column is the list of its cells
(`BlobVec` is missing from the sources; per spec section 4.1 it is a
growable array of cells with push, swap-remove-and-drop,
swap-remove-and-forget and move-to-other-vector, which at the value
level are list operations). -/
structure Table where
  columns : SparseMapM (List Val)
  entities : List Entity
deriving DecidableEq

instance : Inhabited Table := ⟨⟨SparseMapM.new, []⟩⟩

/-- The tables collection: vector of tables plus the component-set key
map (a `HashMap`, embedded as an association list). -/
structure Tables where
  tables : List Table
  by_components : List (List Nat × Nat)
deriving DecidableEq

/-- `Tables::default`: the empty table at id 0 (built by
`TableBuilder::new(0, 0).build()`, so it has no columns), keyed by the
empty component set. -/
def Tables.new : Tables := ⟨[⟨SparseMapM.new, []⟩], [([], 0)]⟩

/-- `Tables::get_table_id_by_component_ids`. -/
def Tables.get_table_id_by_component_ids (tb : Tables) (cids : List Nat) :
    Option Nat :=
  lookup tb.by_components cids

/-- `Tables::get` / `Tables::get_mut`: plain vector indexing, which
aborts when the id does not index an existing table. -/
def Tables.get (tb : Tables) (tid : Nat) : Except Err Table :=
  match tb.tables.get? tid with
  | some t => .ok t
  | none => .error .oob

/-- `Tables::clear`: empties the table vector but leaves `by_components`
untouched. -/
def Tables.clear (tb : Tables) : Tables := ⟨[], tb.by_components⟩

/-- `slice_get_mut_pair` (`src/quasar-ecs/src/util/mod.rs` lines
103–115), reduced to its index/abort behaviour: equal indices yield the
single-borrow signal (`none`) after indexing `slice[first]`; distinct
indices split at `second` and index `left[first]` and `right[0]`, so the
call aborts unless `first < second < len`. -/
def sliceGetMutPair (len first second : Nat) : Except Err (Option Unit) :=
  if first = second then
    if first < len then .ok none else .error .oob
  else
    if first < second ∧ second < len then .ok (some ()) else .error .oob

/-- The three `MoveRowHandleUnmatched` strategies. -/
inductive Policy where
  | dropUnmatched
  | forgetUnmatched
  | panicUnmatched
deriving DecidableEq

/-- The per-column loop of `Table::move_row`, iterating the source
columns in map order (`&mut self.columns`): a column that also exists in
the destination has its cell moved (`Column::move_item` =
swap-remove-and-forget on the source column plus a push through the
destination's `get_column_mut`, both in-place occupied-entry mutations);
an unmatched column is handled by the policy (drop and forget both
swap-remove the cell at the value level; the insert policy aborts). -/
def moveCols (row : Nat) (policy : Policy) :
    List (Nat × List Val) → SparseMapM (List Val) → Table →
    Except Err (SparseMapM (List Val) × Table)
  | [], fromM, toT => .ok (fromM, toT)
  | (cid, col) :: rest, fromM, toT =>
      match toT.columns.get cid with
      | some tocol =>
          let v := col.getD row 0
          let fromM' := fromM.setVal cid (col.swapRemove row)
          let toT' : Table := ⟨toT.columns.setVal cid (tocol ++ [v]), toT.entities⟩
          moveCols row policy rest fromM' toT'
      | none =>
          match policy with
          | .panicUnmatched => .error .panicUnmatched
          | _ =>
              let fromM' := fromM.setVal cid (col.swapRemove row)
              moveCols row policy rest fromM' toT

/-- `Table::move_row`.  Pushes the entity onto the destination entity
list, then — copying table.rs line 158 faithfully — reports the
destination row as `self.entities.len()`, the length of the *source*
entity list.  A valid source row is then bounds-checked, swap-removed
(asserting the stored entity matches) and its columns dispatched; a
swapped-up tail row yields a change record naming the entity now at
`from_row`.  Returns (source table, destination table, reported
destination row, swap record). -/
def Table.move_row (self toT : Table) (from_row : Nat) (e : Entity)
    (policy : Policy) :
    Except Err (Table × Table × Nat × Option (Entity × Nat)) :=
  let toT1 : Table := ⟨toT.columns, toT.entities ++ [e]⟩
  let toRow := self.entities.length
  if from_row = u32Max then
    .ok (self, toT1, toRow, none)
  else if from_row < self.entities.length then
    let swapped := from_row ≠ self.entities.length - 1
    let removed := self.entities.getD from_row default
    let selfEnts := self.entities.swapRemove from_row
    if removed = e then do
      let (cols', toT2) ← moveCols from_row policy self.columns.toPairs
        self.columns toT1
      let chg := if swapped then some (selfEnts.getD from_row default, from_row)
        else none
      .ok (⟨cols', selfEnts⟩, toT2, toRow, chg)
    else
      .error .assertFail
  else
    .error .assertFail

/-- `InsertIntoTable::write_column`: aborts on a missing column, asserts
the column length equals the destination row index, then pushes (an
in-place mutation of a column just looked up). -/
def Table.write_column (t : Table) (cid : Nat) (row : Nat) (v : Val) :
    Except Err Table :=
  match t.columns.get cid with
  | none => .error .writeMissingColumn
  | some col =>
      if col.length = row then
        .ok ⟨t.columns.setVal cid (col ++ [v]), t.entities⟩
      else
        .error .assertFail

/-- `Table::take_component_and_remove_later` for each bundle component in
sorted-id order, as driven by `TakeComponentsFromTable` /
`B::from_components`: a missing column is `None` and the callback
`unwrap`s it (abort).  The cell value is copied out; the row itself is
removed later by the forget-unmatched move.  (The cell read is the
missing `Column::take_item_and_remove_later`, modelled from spec section
4.6: it yields the owned value without invoking drop.) -/
def takeComponents (ids : List Nat) (t : Table) (row : Nat) :
    Except Err (List Val) :=
  match ids with
  | [] => .ok []
  | cid :: rest =>
      match t.columns.get cid with
      | none => .error .unwrapNone
      | some col => do
          let vs ← takeComponents rest t row
          .ok (col.getD row 0 :: vs)

/-! ## Archetypes (`src/quasar-ecs/src/archetype.rs`) -/

/-- An archetype row entry: the entity and its table row. -/
structure ArchetypeEntity where
  entity : Entity
  table_row : Nat
deriving DecidableEq

instance : Inhabited ArchetypeEntity := ⟨⟨default, 0⟩⟩

/-- An `AddBundle` edge: target archetype and the set
(`ImmutableSparseSet`) of bundle components already present in the
source archetype. -/
structure AddBundle where
  archetype_id : Nat
  duplicate : SparseMapM Unit
deriving DecidableEq

/-- A `RemoveBundle` edge. -/
inductive RemoveBundle where
  | Match (archetype_id : Nat)
  | Mismatch
deriving DecidableEq

/-- An archetype: backing table id, entity rows, the component map
(`ImmutableSparseMap<ComponentId, ArchetypeComponentInfo>`; the stored
`ArchetypeComponentInfo` is reduced to the component id it carries, its
other field being the storage class, which the value-level model does
not distinguish) and the two `Edges` sparse maps keyed by bundle id. -/
structure Archetype where
  id : Nat
  table_id : Nat
  entities : List ArchetypeEntity
  components : SparseMapM Nat
  add_edges : SparseMapM AddBundle
  remove_edges : SparseMapM RemoveBundle
deriving DecidableEq

instance : Inhabited Archetype :=
  ⟨⟨0, 0, [], SparseMapM.new, SparseMapM.new, SparseMapM.new⟩⟩

/-- `Archetype::insert_entity`: push and return the new row. -/
def Archetype.insert_entity (a : Archetype) (ae : ArchetypeEntity) :
    Nat × Archetype :=
  (a.entities.length, { a with entities := a.entities ++ [ae] })

/-- `Archetype::remove_entity`: an invalid row is a no-op; a valid row is
swap-removed (`Vec::swap_remove` aborts when out of bounds, and its
`len - 1` underflows on an empty vector — both `.error`); a swapped-up
tail row yields a change record. -/
def Archetype.remove_entity (a : Archetype) (row : Nat) :
    Except Err (Option (Entity × Nat) × Archetype) :=
  if row = u32Max then
    .ok (none, a)
  else if row < a.entities.length then
    let swapped := row ≠ a.entities.length - 1
    let ents := a.entities.swapRemove row
    let chg := if swapped then some ((ents.getD row default).entity, row) else none
    .ok (chg, { a with entities := ents })
  else
    .error .oob

/-- The archetypes collection. -/
structure Archetypes where
  archetypes : List Archetype
  by_components : List (List Nat × Nat)
  by_component : List (Nat × List Nat)
deriving DecidableEq

/-- `Archetypes::default`: the empty archetype at id 0. -/
def Archetypes.new : Archetypes :=
  ⟨[⟨0, 0, [], SparseMapM.new, SparseMapM.new, SparseMapM.new⟩], [([], 0)], []⟩

/-- The local `Table` enum of `create_archetype`: an existing table id,
or a fresh `TableBuilder` (whose column map starts empty). -/
inductive TableSlot where
  | Existing (tid : Nat)
  | New (builder : SparseMapM (List Val))
deriving DecidableEq

/-- The per-component loop of `create_archetype`: each component id is
inserted into the `archetype_component_infos` sparse map (the stored
`ArchetypeComponentInfo` carries the component id), and
`Table::add_component` inserts a fresh (empty) column into the builder's
sparse map when the table is new.  Both maps start empty, so on a
non-empty component list the first insert already takes the defective
vacant path and aborts.  (`Components::get_component_info`, an in-bounds
vector index for the registered ids that reach this loop, is elided.) -/
def createArchLoop : List Nat → SparseMapM Nat → TableSlot →
    Except Err (SparseMapM Nat × TableSlot)
  | [], infos, slot => .ok (infos, slot)
  | cid :: rest, infos, slot => do
      let (_, infos') ← infos.insert cid cid
      let slot' ←
        match slot with
        | .Existing tid => Except.ok (TableSlot.Existing tid)
        | .New builder =>
            (builder.insert cid []).map (fun p => TableSlot.New p.2)
      createArchLoop rest infos' slot'

/-- `Table::finish` inside `create_archetype`: an existing table id is
returned as is; a new builder is built and appended through
`Tables::insert`, whose duplicate-key abort fires when the built table's
component-id set (the builder's keys) is already registered. -/
def TableSlot.finish (slot : TableSlot) (tb : Tables) :
    Except Err (Nat × Tables) :=
  match slot with
  | .Existing tid => .ok (tid, tb)
  | .New builder =>
      let tid := tb.tables.length
      match lookup tb.by_components builder.keys with
      | some _ => .error .tableExists
      | none =>
          .ok (tid, ⟨tb.tables ++ [⟨builder, []⟩],
            (builder.keys, tid) :: tb.by_components⟩)

/-- `create_archetype` (archetype.rs lines 383–440): pick an existing
table with exactly this component set or a fresh builder, run the
per-component loop — whose sparse-map inserts abort on the first
component of any non-empty set — then finish the table and assemble the
archetype (its edge maps empty). -/
def create_archetype (aid : Nat) (cids : List Nat) (tb : Tables) :
    Except Err (Archetype × Tables) := do
  let slot :=
    match tb.get_table_id_by_component_ids cids with
    | some tid => TableSlot.Existing tid
    | none => TableSlot.New SparseMapM.new
  let (infos, slot') ← createArchLoop cids SparseMapM.new slot
  let (tid, tb') ← slot'.finish tb
  .ok (⟨aid, tid, [], infos, SparseMapM.new, SparseMapM.new⟩, tb')

/-- `Archetypes::get_or_insert_archetype_by_components`: return the
existing archetype id for this component set, or create the archetype
(and possibly its table) at the reserved next id, updating the
`by_component` and `by_components` registries (both `HashMap`s). -/
def Archetypes.get_or_insert (as : Archetypes) (cids : List Nat) (tb : Tables) :
    Except Err (Nat × Archetypes × Tables) :=
  let reserved := as.archetypes.length
  match lookup as.by_components cids with
  | some id => .ok (id, as, tb)
  | none => do
      let (arch, tb') ← create_archetype reserved cids tb
      let byComp := cids.foldl
        (fun m cid =>
          match lookup m cid with
          | some l => updateAt m cid (fun _ => l ++ [reserved])
          | none => (cid, [reserved]) :: m)
        as.by_component
      .ok (reserved, ⟨as.archetypes ++ [arch],
        (cids, reserved) :: as.by_components, byComp⟩, tb')

/-- The final step shared by `add_bundle` / `remove_bundle`:
`slice_get_mut_pair` over the archetype vector, `.ok()`-ed into an
optional pair of archetype ids. -/
def Archetypes.pairOf (as : Archetypes) (tb : Tables) (fromId toId : Nat) :
    Except Err (Archetypes × Tables × Option (Nat × Nat)) :=
  (sliceGetMutPair as.archetypes.length fromId toId).map
    (fun o => (as, tb, o.map (fun _ => (fromId, toId))))

/-- The union/duplicate loop of `Archetypes::add_bundle`: a bundle
component already present in the source archetype goes into the
`duplicate` sparse set — whose insert aborts on the first such
component, the set being fresh — and the others are appended to the new
component-id list. -/
def addBundleLoop (existing : SparseMapM Nat) :
    List Nat → SparseMapM Unit → List Nat →
    Except Err (SparseMapM Unit × List Nat)
  | [], dup, acc => .ok (dup, acc)
  | cid :: rest, dup, acc =>
      if existing.contains cid then do
        let dup' ← SparseSetM.insertKey dup cid
        addBundleLoop existing rest dup' acc
      else
        addBundleLoop existing rest dup (acc ++ [cid])

/-- `Archetypes::add_bundle`: empty bundle is a no-op (`none`); a cached
edge short-circuits to the target; a fresh edge unions the component
sets (recording the intersection as duplicates), sorts, looks up or
creates the target archetype, caches the edge on the re-indexed source
archetype (a sparse-map insert) and returns both archetype ids unless
they coincide. -/
def Archetypes.add_bundle (as : Archetypes) (aid : Nat) (bi : BundleInfo)
    (tb : Tables) : Except Err (Archetypes × Tables × Option (Nat × Nat)) :=
  if bi.component_ids = [] then
    .ok (as, tb, none)
  else
    match as.archetypes.get? aid with
    | none => .error .oob
    | some fromA =>
        match fromA.add_edges.get bi.id with
        | some e => as.pairOf tb aid e.archetype_id
        | none => do
            let existing := fromA.components
            let (dup, newIds) ← addBundleLoop existing bi.component_ids
              SparseMapM.new []
            let compIds := List.insertionSort (· ≤ ·) (existing.keys ++ newIds)
            let (toId, as1, tb1) ← as.get_or_insert compIds tb
            let fromA1 := as1.archetypes.getD aid default
            let (_, edges') ← fromA1.add_edges.insert bi.id ⟨toId, dup⟩
            let as2 : Archetypes :=
              ⟨as1.archetypes.set aid { fromA1 with add_edges := edges' },
                as1.by_components, as1.by_component⟩
            as2.pairOf tb1 aid toId

/-- `Archetypes::remove_bundle`: empty bundle is a no-op; a cached edge
dispatches on `Match`/`Mismatch`; a fresh edge collects the bundle's ids
into an `ImmutableSparseSet` — a fold of sparse-set inserts into a fresh
set, which aborts on the first id of the (non-empty) bundle — then would
keep the source components not named by the bundle, apply the source's
mismatch test `remove.len() + kept.len() < from.components.len()`
(archetype.rs lines 342–344) verbatim and cache the edge by a sparse-map
insert. -/
def Archetypes.remove_bundle (as : Archetypes) (aid : Nat) (bi : BundleInfo)
    (tb : Tables) : Except Err (Archetypes × Tables × Option (Nat × Nat)) :=
  if bi.component_ids = [] then
    .ok (as, tb, none)
  else
    match as.archetypes.get? aid with
    | none => .error .oob
    | some fromA =>
        match fromA.remove_edges.get bi.id with
        | some (.Match toId) => as.pairOf tb aid toId
        | some .Mismatch => .ok (as, tb, none)
        | none => do
            let removeSet ← SparseSetM.collect bi.component_ids
            let kept := fromA.components.keys.filter
              (fun cid => ! removeSet.contains cid)
            if removeSet.len + kept.length < fromA.components.len then do
              let (_, edges') ← fromA.remove_edges.insert bi.id
                RemoveBundle.Mismatch
              let as1 : Archetypes :=
                ⟨as.archetypes.set aid { fromA with remove_edges := edges' },
                  as.by_components, as.by_component⟩
              .ok (as1, tb, none)
            else do
              let (toId, as1, tb1) ← as.get_or_insert kept tb
              let fromA1 := as1.archetypes.getD aid default
              let (_, edges') ← fromA1.remove_edges.insert bi.id
                (RemoveBundle.Match toId)
              let as2 : Archetypes :=
                ⟨as1.archetypes.set aid { fromA1 with remove_edges := edges' },
                  as1.by_components, as1.by_component⟩
              as2.pairOf tb1 aid toId

/-! ## The world (`src/quasar-ecs/src/world.rs`) -/

/-- The three strategies of `InsertRemoveTakeOp`: `InsertOp` carries a
dynamic bundle value (typed component values in declared order),
`RemoveOp`/`TakeOp` carry a static bundle type (declared component-type
sequence). -/
inductive Op where
  | insert (bundle : List (CompType × Val))
  | remove (ty : List CompType)
  | take (ty : List CompType)

/-- The bundle-type key under which `get_bundle_info` registers the
bundle. -/
def Op.bundleKey : Op → List CompType
  | .insert b => b.map Prod.fst
  | .remove ty => ty
  | .take ty => ty

/-- `handle_unmatched` per strategy. -/
def Op.policy : Op → Policy
  | .insert _ => .panicUnmatched
  | .remove _ => .dropUnmatched
  | .take _ => .forgetUnmatched

/-- `InsertComponentsIntoTable` driven by `into_components`: the bundle
values arrive in declared order and are paired with the registered
(sorted) component-id sequence; ids in the edge's `duplicate` sparse set
are skipped (`!add_bundle.duplicate.contains(..)`); running out of ids
aborts (`expect`). -/
def writeComponents (ids : List Nat) (dup : SparseMapM Unit)
    (vals : List Val) (t : Table) (row : Nat) : Except Err Table :=
  match vals, ids with
  | [], _ => .ok t
  | _ :: _, [] => .error .unwrapNone
  | v :: vs, cid :: rest =>
      if dup.contains cid then
        writeComponents rest dup vs t row
      else do
        let t' ← t.write_column cid row v
        writeComponents rest dup vs t' row

/-- The world: composition of all the stores. -/
structure World where
  entities : Entities
  components : Components
  archetypes : Archetypes
  tables : Tables
  bundles : Bundles
deriving DecidableEq

/-- `World::new`. -/
def World.new : World :=
  ⟨⟨[], []⟩, ⟨[], []⟩, Archetypes.new, Tables.new, ⟨[], []⟩⟩

/-- `EntityWorldMut::insert_remove_take_inner`, the shared engine of
insert / remove / take, specialised by `op` (world.rs lines 310–428).
`entity`/`loc` are the `EntityWorldMut`'s handle and cached location.
Returns the new world, the new cached location and the op output
(`some` values for a take that reached the migration branch, `some []`
for insert/remove there, `none` when no migration happened). -/
def insertRemoveTake (w : World) (entity : Entity) (loc : EntityLocation)
    (op : Op) : Except Err (World × EntityLocation × Option (List Val)) := do
  let (bi, bundles', components') ←
    match Bundles.get_mut_or_insert w.bundles op.bundleKey w.components with
    | .ok x => Except.ok x
    | .error names => Except.error (Err.dupBundle names)
  let w1 : World := ⟨w.entities, components', w.archetypes, w.tables, bundles'⟩
  let (archetypes', tables', pairIds) ←
    match op with
    | .insert _ => w1.archetypes.add_bundle loc.archetype_id bi w1.tables
    | _ => w1.archetypes.remove_bundle loc.archetype_id bi w1.tables
  let w2 : World := ⟨w1.entities, w1.components, archetypes', tables', w1.bundles⟩
  match pairIds with
  | none => .ok (w2, loc, none)
  | some (fromId, toId) => do
      let fromA := w2.archetypes.archetypes.getD fromId default
      let toA := w2.archetypes.archetypes.getD toId default
      let newLoc0 : EntityLocation :=
        ⟨toId, loc.archetype_row, toA.table_id, loc.table_row⟩
      let pairT ← sliceGetMutPair w2.tables.tables.length fromA.table_id toA.table_id
      let (w3, newLoc1, output) ←
        match pairT with
        | some _ => do
            let fromT := w2.tables.tables.getD fromA.table_id default
            let toT := w2.tables.tables.getD toA.table_id default
            let output ←
              match op with
              | .take _ => takeComponents bi.component_ids fromT loc.table_row
              | _ => Except.ok []
            let (fromT', toT', toRow, swapped) ←
              Table.move_row fromT toT loc.table_row entity op.policy
            let ents1 ←
              match swapped with
              | none => Except.ok w2.entities
              | some (se, srow) =>
                  match w2.entities.rewrite_table_row se srow with
                  | some s => Except.ok s
                  | none => Except.error Err.oob
            let toT2 ←
              match op with
              | .insert b => do
                  let edge ←
                    match fromA.add_edges.get bi.id with
                    | some e => Except.ok e
                    | none => Except.error Err.unwrapNone
                  writeComponents bi.component_ids edge.duplicate (b.map Prod.snd)
                    toT' toRow
              | _ => Except.ok toT'
            let tablesVec :=
              (w2.tables.tables.set fromA.table_id fromT').set toA.table_id toT2
            let wt : World := ⟨ents1, w2.components, w2.archetypes,
              ⟨tablesVec, w2.tables.by_components⟩, w2.bundles⟩
            Except.ok (wt, { newLoc0 with table_row := toRow },
              (some output : Option (List Val)))
        | none => Except.ok (w2, newLoc0, (none : Option (List Val)))
      let fromA1 := w3.archetypes.archetypes.getD fromId default
      let (chg, fromA2) ← fromA1.remove_entity loc.archetype_row
      let ents2 ←
        match chg with
        | none => Except.ok w3.entities
        | some (se, srow) =>
            match w3.entities.rewrite_archetype_row se srow with
            | some s => Except.ok s
            | none => Except.error Err.oob
      let asSet1 := w3.archetypes.archetypes.set fromId fromA2
      let (newRow, toA2) := (asSet1.getD toId default).insert_entity
        ⟨entity, newLoc1.table_row⟩
      let newLoc2 := { newLoc1 with archetype_row := newRow }
      let ents3 ←
        match Entities.set_location ents2 entity newLoc2 with
        | some s => Except.ok s
        | none => Except.error Err.oob
      .ok (⟨ents3, w3.components,
        ⟨asSet1.set toId toA2, w3.archetypes.by_components,
          w3.archetypes.by_component⟩, w3.tables, w3.bundles⟩, newLoc2, output)

/-- `World::clear_entities`: clears the entity metadata and the table
vector (but, per `Tables::clear`, not the table key map, and nothing of
the archetypes). -/
def World.clear_entities (w : World) : World :=
  ⟨w.entities.clear, w.components, w.archetypes, w.tables.clear, w.bundles⟩

/-- `World::spawn_empty`: allocate a handle with the `EMPTY` location. -/
def World.spawn_empty (w : World) : Option (World × Entity × EntityLocation) :=
  w.entities.allocate.map (fun p =>
    (⟨p.2, w.components, w.archetypes, w.tables, w.bundles⟩, p.1,
      EntityLocation.EMPTY))

/-- `World::spawn`: `spawn_empty` followed by `insert(bundle)`. -/
def World.spawn (w : World) (bundle : List (CompType × Val)) :
    Except Err (World × Entity × EntityLocation) :=
  match w.spawn_empty with
  | none => .error .genOverflow
  | some (w', e, loc) =>
      (insertRemoveTake w' e loc (Op.insert bundle)).map
        (fun r => (r.1, e, r.2.1))

/-- `World::get_entity`, reduced to the location lookup that decides
whether an `EntityRef` is produced. -/
def World.get_entity (w : World) (e : Entity) :
    Except Err (Option EntityLocation) :=
  w.entities.get_location e

deriving instance DecidableEq for Except

/-! ## Registry well-formedness (used by the bundle-registration claim) -/

/-- Well-formedness of the component registry: every type-map entry
points inside the info vector at an info carrying that type's name, and
no two types share an id.  `Components::register` establishes and
preserves this; it is the precondition under which bundle registration
is analysed. -/
structure Components.WF (c : Components) : Prop where
  dom : ∀ p ∈ c.by_type, p.2 < c.infos.length ∧
    (c.infos.getD p.2 default).name = compTypeName p.1
  inj : ∀ p ∈ c.by_type, ∀ q ∈ c.by_type, p.2 = q.2 → p.1 = q.1

/-! ## Concrete world states used by the claim theorems -/

/-- The world, entity and location returned by `spawn_empty` on the
fresh world (the allocation succeeds there, so the default is never
taken). -/
def emptySpawn : World × Entity × EntityLocation :=
  (World.spawn_empty World.new).getD (World.new, default, EntityLocation.INVALID)

/-! ## The allocator transition system (towards C7)

The claim quantifies over states of the entity allocator reachable by
`allocate` / `set_location` / `free`.  The transition relation applies
the embedded source functions; `set_location` and `free` are restricted
to handles currently held by a caller (returned by `allocate` and not
since freed), which is the usage discipline of the world (spec section
4.3 specifies `set_location` as asserting validity of the handle, and
`free` is reached only through `despawn` of a held entity).  `o` tracks
the currently held handles, `f` the handles that have been freed
(pushed onto the free list at some point). -/

/-- Reachability of an allocator state `s` with held handles `o` and
freed-handle history `f`. -/
inductive AllocReach : Entities → List Entity → List Entity → Prop where
  | init : AllocReach ⟨[], []⟩ [] []
  | alloc {s : Entities} {o f : List Entity} {e : Entity} {s' : Entities} :
      AllocReach s o f → s.allocate = some (e, s') →
      AllocReach s' (e :: o) f
  | setLoc {s : Entities} {o f : List Entity} {e : Entity}
      {l : EntityLocation} {s' : Entities} :
      AllocReach s o f → e ∈ o → s.set_location e l = some s' →
      AllocReach s' o f
  | free {s : Entities} {o f : List Entity} {e : Entity} {s' : Entities}
      {pushed : Bool} :
      AllocReach s o f → e ∈ o → s.free e = some (s', pushed) →
      AllocReach s' (o.erase e) (if pushed then e :: f else f)

/-- The allocator invariant carried through `AllocReach`: held and free
handles index into the metadata and carry bounded generations, indices
are unique across held and free handles, and every freed handle is
dominated by its slot (empty sentinel or strictly larger stored
generation), by any held handle on its index and by any free-list entry
on its index. -/
structure AInv (s : Entities) (o f : List Entity) : Prop where
  ownedIdx : ∀ e ∈ o, e.index < s.meta.length ∧ e.generation ≤ u32Max
  freeIdx : ∀ e ∈ s.free_list, e.index < s.meta.length
  distinct : List.Pairwise (fun a b => a.index ≠ b.index) (o ++ s.free_list)
  freedLt : ∀ x ∈ f, x.index < s.meta.length ∧
    ((s.meta.getD x.index default).generation = u32Max ∨
      x.generation < (s.meta.getD x.index default).generation)
  freedOwned : ∀ x ∈ f, ∀ e ∈ o, x.index = e.index →
    x.generation < e.generation
  freedFree : ∀ x ∈ f, ∀ e ∈ s.free_list, x.index = e.index →
    x.generation ≤ e.generation

/-- C1: the location-consistency invariant requires in particular that
the table row recorded after `Table::move_row` is the row at which the
entity was appended to the destination table.  `Table::move_row` instead
reports `self.entities.len()`, the length of the *source* table
(table.rs line 158): moving entity `1v1` into a destination that
already holds one row appends it at row 1 but reports row 0.  The world
operations themselves never reach this misrecording: already the first
spawn of a non-empty bundle aborts with an out-of-bounds index inside
`create_archetype`'s sparse-map insert (sparse_map.rs line 282), so the
claim's "reachable world states" degenerate to aborts. -/
theorem c1_move_row_misrecords_destination_row :
    Table.move_row ⟨SparseMapM.new, []⟩ ⟨⟨[some [5]], 1⟩, [⟨0, 1⟩]⟩ u32Max
        ⟨1, 1⟩ Policy.panicUnmatched
      = .ok (⟨SparseMapM.new, []⟩, ⟨⟨[some [5]], 1⟩, [⟨0, 1⟩, ⟨1, 1⟩]⟩, 0,
        none) ∧
    World.spawn World.new [(0, 5)] = .error .oob := by
  decide

/-- C2: the claim states `spawn(b).take::<B>()` returns `Some(b)`.  The
round trip aborts at its first step: spawning a one-component bundle
into the fresh world reaches `create_archetype`, whose first sparse-map
insert (`archetype_component_infos.insert`, taking the defective vacant
path of sparse_map.rs line 282) indexes out of bounds, so no entity to
take from is ever produced (contradicting the crate's own
`take_component` test, which expects the round trip to succeed). -/
theorem c2_spawn_take_roundtrip_aborts :
    World.spawn World.new [(0, 1312)] = .error .oob := by
  decide

/-- C3: the claim states a take of a bundle the entity does not fully
have returns `None` rather than failing.  On the code, an entity spawned
empty (archetype 0, which holds no components) subjected to `take` of
the one-component bundle {0} — a component the entity lacks — aborts
with an out-of-bounds index at `remove_bundle`'s
`collect::<ImmutableSparseSet<_>>()` of the bundle ids (the collect's
first sparse-set insert takes the defective vacant path,
sparse_map.rs line 282) instead of returning `None`. -/
theorem c3_partial_take_aborts :
    (World.new.archetypes.archetypes.getD 0 default).components.get 0
      = none ∧
    World.spawn_empty World.new = some emptySpawn ∧
    insertRemoveTake emptySpawn.1 emptySpawn.2.1 emptySpawn.2.2 (Op.take [0])
      = .error .oob := by
  decide

/-- C4: the claim states `Archetypes::remove_bundle` caches a `Mismatch`
edge and returns nothing whenever the bundle names a component the
source archetype lacks.  On the fresh archetype graph, removing the
one-component bundle {0} from archetype 0 (which lacks component 0) —
an instance of the claim's premise — aborts with an out-of-bounds index
at the `collect::<ImmutableSparseSet<_>>()` of the bundle ids, before
the mismatch test runs and before anything is cached: no `Mismatch` edge
is ever created.  (The mismatch test itself,
`remove.len() + kept.len() < from.components.len()`, archetype.rs lines
342–344, is also unsatisfiable — its left side always equals
`from.len()` plus the number of missing bundle components — but the
staged code aborts before reaching it.) -/
theorem c4_remove_bundle_never_caches_mismatch :
    (Archetypes.new.archetypes.getD 0 default).components.get 0 = none ∧
    Archetypes.remove_bundle Archetypes.new 0 ⟨0, [0]⟩ Tables.new
      = .error .oob := by
  decide

/-- C8: the claim states inserting into a sparse map succeeds and grows
the backing array as needed.  `VacantEntry::insert` grows the vector
only when `index > len` and only up to length `index`, then writes
`values[index]`: the very first insert into an empty map (key index 0)
and an insert past the backing length (key index 3, length 1) both abort
with an out-of-bounds index. -/
theorem c8_sparse_map_vacant_insert_aborts :
    SparseMapM.insert (SparseMapM.new (V := Nat)) 0 42 = .error .oob ∧
    SparseMapM.insert (⟨[some 1], 1⟩ : SparseMapM Nat) 3 42 = .error .oob := by
  decide

/-- C9: `World::clear_entities` empties the table vector but leaves
`Tables.by_components` populated (the empty component set still maps to
table id 0) and leaves every archetype — including its table id —
intact, so on the cleared fresh world the table id 0 held both by
`by_components` and by archetype 0 dangles, and `Tables::get` on it
(`Tables::get(TableId::EMPTY)`, the resolution named by the claim)
aborts with an out-of-bounds index.  (The claim's illustrative context,
a table-id resolution during a spawn's insert, is not reached by the
staged program: a spawn of a non-empty bundle aborts even earlier, in
`create_archetype`'s sparse-map insert.) -/
theorem c9_clear_entities_leaves_dangling_table_ids :
    (World.clear_entities World.new).tables.tables = [] ∧
    lookup (World.clear_entities World.new).tables.by_components []
      = some 0 ∧
    (World.clear_entities World.new).archetypes = World.new.archetypes ∧
    ((World.clear_entities World.new).archetypes.archetypes.map
        Archetype.table_id) = [0] ∧
    Tables.get (World.clear_entities World.new).tables 0 = .error .oob := by
  decide

/-- C5: inserting the empty bundle is a no-op: for every world whose
bundle registry is consistent about the empty bundle type (its
`BundleInfo`, if already registered, lists no components — true of every
world built through registration), `insert(())` on any entity leaves the
entity metadata (hence every stored `EntityLocation`), every archetype
(hence every entity list) and every table unchanged, returns no output
and leaves the cached location unchanged; only the bundle registry may
gain the empty bundle's entry. -/
theorem c5_empty_insert_is_noop (w : World) (e : Entity) (loc : EntityLocation)
    (h : ∀ i, lookup w.bundles.by_type [] = some i →
      (w.bundles.bundle_infos.getD i default).component_ids = []) :
    ∃ bundles', insertRemoveTake w e loc (Op.insert []) =
      .ok (⟨w.entities, w.components, w.archetypes, w.tables, bundles'⟩, loc,
        none) := by
  unfold insertRemoveTake
  cases hl : lookup w.bundles.by_type ([] : List CompType) with
  | some i =>
      refine ⟨w.bundles, ?_⟩
      have hids := h i hl
      simp only [List.getD_eq_getElem?_getD] at hids
      simp [Op.bundleKey, Bundles.get_mut_or_insert, hl, hids,
        Archetypes.add_bundle, Bind.bind, Except.bind]
  | none =>
      refine ⟨⟨w.bundles.bundle_infos ++ [⟨w.bundles.bundle_infos.length, []⟩],
        ([], w.bundles.bundle_infos.length) :: w.bundles.by_type⟩, ?_⟩
      simp [Op.bundleKey, Bundles.get_mut_or_insert, hl, registerAll,
        List.insertionSort, partitionDedup, Archetypes.add_bundle,
        Bind.bind, Except.bind]

/-- C5 witness: the empty-bundle insert at the fresh world. -/
theorem c5_empty_insert_is_noop_witness :
    ∃ bundles', insertRemoveTake World.new ⟨0, 1⟩ EntityLocation.EMPTY
        (Op.insert []) =
      .ok (⟨World.new.entities, World.new.components, World.new.archetypes,
        World.new.tables, bundles'⟩, EntityLocation.EMPTY, none) :=
  c5_empty_insert_is_noop World.new ⟨0, 1⟩ EntityLocation.EMPTY
    (by intro i hi; simp [World.new, lookup] at hi)

/-- C10: an entity created by `spawn_empty` with no subsequent insert is
not resolvable: `allocate` leaves the slot's stored generation at the
`INVALID` sentinel, so for every world with an empty free list (the
world operations never free, so this covers every world-reachable
state) `World::get_entity` / `Entities::get_location` on the returned
handle is `None`.  The claim's "until a non-empty bundle is inserted"
boundary is never crossed by the staged program: the first non-empty
insert on the fresh world's spawned-empty entity aborts with an
out-of-bounds index in `create_archetype`'s sparse-map insert instead
of writing a location, so the handle stays unresolvable. -/
theorem c10_spawn_empty_unresolvable :
    (∀ w : World, w.entities.free_list = [] →
      ∀ w' e loc, w.spawn_empty = some (w', e, loc) →
        World.get_entity w' e = .ok none) ∧
    (∀ w1 e1 loc1, World.spawn_empty World.new = some (w1, e1, loc1) →
      World.get_entity w1 e1 = .ok none ∧
      insertRemoveTake w1 e1 loc1 (Op.insert [(0, 5)]) = .error .oob) := by
  constructor
  · intro w hfl w' e loc hsp
    unfold World.spawn_empty Entities.allocate at hsp
    rw [hfl] at hsp
    simp only [Option.map_some', Option.some.injEq, Prod.mk.injEq] at hsp
    obtain ⟨rfl, rfl, -⟩ := hsp
    unfold World.get_entity Entities.get_location
    simp [List.get?_eq_getElem?, List.getElem?_concat_length, EntityMeta.EMPTY]
    have h1 : ¬ ((1 : Nat) = u32Max) := by decide
    have h2 : (1 : Nat) < u32Max := by decide
    simp [h1, h2]
  · intro w1 e1 loc1 hsp
    have hse : World.spawn_empty World.new
        = some (⟨⟨[EntityMeta.EMPTY], []⟩, ⟨[], []⟩, Archetypes.new,
          Tables.new, ⟨[], []⟩⟩, ⟨0, 1⟩, EntityLocation.EMPTY) := by decide
    rw [hse] at hsp
    simp only [Option.some.injEq, Prod.mk.injEq] at hsp
    obtain ⟨rfl, rfl, rfl⟩ := hsp
    exact ⟨by decide, by decide⟩

/-- C10 witness: both parts instantiated at the fresh world. -/
theorem c10_spawn_empty_unresolvable_witness :
    World.get_entity ⟨⟨[EntityMeta.EMPTY], []⟩, ⟨[], []⟩, Archetypes.new,
        Tables.new, ⟨[], []⟩⟩ ⟨0, 1⟩ = .ok none ∧
    insertRemoveTake ⟨⟨[EntityMeta.EMPTY], []⟩, ⟨[], []⟩, Archetypes.new,
        Tables.new, ⟨[], []⟩⟩ ⟨0, 1⟩ EntityLocation.EMPTY
      (Op.insert [(0, 5)]) = .error .oob := by
  constructor
  · exact c10_spawn_empty_unresolvable.1 World.new rfl
      ⟨⟨[EntityMeta.EMPTY], []⟩, ⟨[], []⟩, Archetypes.new, Tables.new,
        ⟨[], []⟩⟩ ⟨0, 1⟩ EntityLocation.EMPTY (by decide)
  · exact (c10_spawn_empty_unresolvable.2
      ⟨⟨[EntityMeta.EMPTY], []⟩, ⟨[], []⟩, Archetypes.new, Tables.new,
        ⟨[], []⟩⟩ ⟨0, 1⟩ EntityLocation.EMPTY (by decide)).2

/-! ## Lemmas about registration and `partition_dedup` (towards C6) -/

theorem lookup_mem {κ α : Type} [DecidableEq κ] {l : List (κ × α)} {k : κ}
    {v : α} (h : lookup l k = some v) : (k, v) ∈ l := by
  induction l with
  | nil => simp [lookup] at h
  | cons p rest ih =>
      by_cases hp : p.1 = k
      · rw [lookup, if_pos hp] at h
        injection h with h
        subst h
        exact List.mem_cons.2 (Or.inl (by cases p with
          | mk a b => simp only at hp; simp [hp]))
      · rw [lookup, if_neg hp] at h
        exact List.mem_cons_of_mem _ (ih h)

theorem register_wf {c : Components} (hwf : c.WF) (t : CompType) :
    (c.register t).2.WF := by
  unfold Components.register
  split
  · exact hwf
  · constructor
    · intro p hp
      rcases List.mem_cons.1 hp with hp | hp
      · subst hp
        refine ⟨by simp, ?_⟩
        simp [List.getD_eq_getElem?_getD, List.getElem?_concat_length]
      · obtain ⟨h1, h2⟩ := hwf.dom p hp
        refine ⟨by simpa using Nat.lt_succ_of_lt h1, ?_⟩
        rw [List.getD_eq_getElem?_getD, List.getElem?_append_left h1]
        rw [List.getD_eq_getElem?_getD] at h2
        exact h2
    · intro p hp q hq hpq
      rcases List.mem_cons.1 hp with hp | hp <;>
        rcases List.mem_cons.1 hq with hq | hq
      · rw [hp, hq]
      · subst hp
        exact absurd ((hwf.dom q hq).1) (by simp [← hpq])
      · subst hq
        exact absurd ((hwf.dom p hp).1) (by simp [hpq])
      · exact hwf.inj p hp q hq hpq

theorem register_lookup_stable {c : Components} {u : CompType} {i : Nat}
    (h : lookup c.by_type u = some i) (t : CompType) :
    lookup (c.register t).2.by_type u = some i := by
  unfold Components.register
  split
  · exact h
  · next hl =>
      have htu : t ≠ u := by
        intro he
        rw [he, h] at hl
        cases hl
      simp [lookup, htu, h]

theorem register_lookup_self (c : Components) (t : CompType) :
    lookup (c.register t).2.by_type t = some (c.register t).1 := by
  unfold Components.register
  split
  · next i hl => exact hl
  · simp [lookup]

theorem registerAll_wf {c : Components} (hwf : c.WF) (ts : List CompType) :
    (registerAll c ts).2.WF := by
  induction ts generalizing c with
  | nil => exact hwf
  | cons t ts ih =>
      simpa [registerAll] using ih (register_wf hwf t)

theorem registerAll_lookup_stable {c : Components} {u : CompType} {i : Nat}
    (h : lookup c.by_type u = some i) (ts : List CompType) :
    lookup (registerAll c ts).2.by_type u = some i := by
  induction ts generalizing c with
  | nil => exact h
  | cons t ts ih =>
      simpa [registerAll] using ih (register_lookup_stable h t)

theorem registerAll_registers {c : Components} {t : CompType}
    {ts : List CompType} (h : t ∈ ts) :
    ∃ i, lookup (registerAll c ts).2.by_type t = some i := by
  induction ts generalizing c with
  | nil => cases h
  | cons u ts ih =>
      rcases List.mem_cons.1 h with rfl | h
      · refine ⟨(c.register t).1, ?_⟩
        have h2 := registerAll_lookup_stable (register_lookup_self c t) ts
        simpa [registerAll] using h2
      · simpa [registerAll] using ih (c := (c.register u).2) h

theorem registerAll_ids (c : Components) (ts : List CompType) :
    (registerAll c ts).1 = ts.map (fun t =>
      (lookup (registerAll c ts).2.by_type t).getD 0) := by
  induction ts generalizing c with
  | nil => rfl
  | cons u ts ih =>
      have hhead : lookup (registerAll (c.register u).2 ts).2.by_type u
          = some (c.register u).1 :=
        registerAll_lookup_stable (register_lookup_self c u) ts
      simp [registerAll, hhead, ih (c := (c.register u).2)]

theorem count_le_count_map {α β : Type} [DecidableEq α] [DecidableEq β]
    (f : α → β) (l : List α) (t : α) :
    l.count t ≤ (l.map f).count (f t) := by
  induction l with
  | nil => simp
  | cons a l ih =>
      simp only [List.map_cons, List.count_cons]
      by_cases ha : a = t
      · simp only [ha]
        simp
        omega
      · by_cases hfa : f a = f t
        · simp [ha, hfa]
          omega
        · simp [ha, hfa]
          omega

theorem pdGo_eq_of_chain : ∀ (rest : List Nat) (last : Nat),
    List.Chain' (· ≠ ·) (last :: rest) → pdGo last rest = (rest, []) := by
  intro rest
  induction rest with
  | nil => intro last _; rfl
  | cons y rs ih =>
      intro last hch
      have hne : y ≠ last := (List.chain'_cons.1 hch).1.symm
      rw [pdGo, if_pos hne, ih y (List.chain'_cons.1 hch).2]

theorem partitionDedup_of_nodup {l : List Nat} (h : l.Nodup) :
    partitionDedup l = (l, []) := by
  cases l with
  | nil => rfl
  | cons a rest =>
      have hch : List.Chain' (· ≠ ·) (a :: rest) := h.chain'
      rw [partitionDedup, pdGo_eq_of_chain rest a hch]

theorem pdGo_mem_right : ∀ (rest : List Nat) (last x : Nat),
    List.Sorted (· ≤ ·) (last :: rest) →
    ((x = last ∧ x ∈ rest) ∨ 2 ≤ rest.count x) →
    x ∈ (pdGo last rest).2 := by
  intro rest
  induction rest with
  | nil =>
      intro last x _ h
      rcases h with ⟨-, h⟩ | h
      · cases h
      · simp at h
  | cons y rs ih =>
      intro last x hs h
      have hsYrs : List.Sorted (· ≤ ·) (y :: rs) := (List.sorted_cons.1 hs).2
      have hsRs : List.Sorted (· ≤ ·) (last :: rs) := by
        refine List.sorted_cons.2 ⟨?_, (List.sorted_cons.1 hsYrs).2⟩
        intro b hb
        exact (List.sorted_cons.1 hs).1 b (List.mem_cons_of_mem _ hb)
      by_cases hy : y ≠ last
      · rcases hpd : pdGo y rs with ⟨L, R⟩
        rw [pdGo, if_pos hy, hpd]
        show x ∈ R
        rcases h with ⟨rfl, hmem⟩ | hc
        · rcases List.mem_cons.1 hmem with rfl | hmem'
          · exact absurd rfl hy
          · have h1 : x ≤ y := (List.sorted_cons.1 hs).1 y (List.mem_cons_self _ _)
            have h2 : y ≤ x := (List.sorted_cons.1 hsYrs).1 x hmem'
            exact absurd (Nat.le_antisymm h2 h1) hy
        · by_cases hxy : x = y
          · have hmem : x ∈ rs := by
              rw [← List.count_pos_iff]
              rw [List.count_cons] at hc
              have hb : (if y == x then 1 else 0) ≤ 1 := by
                split <;> omega
              omega
            have := ih y x hsYrs (Or.inl ⟨hxy, hmem⟩)
            rwa [hpd] at this
          · have hc' : 2 ≤ rs.count x := by
              rw [List.count_cons, if_neg (by simpa using Ne.symm hxy)] at hc
              simpa using hc
            have := ih y x hsYrs (Or.inr hc')
            rwa [hpd] at this
      · push_neg at hy
        rcases hpd : pdGo last rs with ⟨L, R⟩
        rw [pdGo, if_neg (by simp [hy]), hpd]
        show x ∈ y :: R
        rcases h with ⟨rfl, hmem⟩ | hc
        · exact hy ▸ List.mem_cons_self _ _
        · by_cases hxy : x = y
          · exact hxy ▸ List.mem_cons_self _ _
          · have hc' : 2 ≤ rs.count x := by
              rw [List.count_cons, if_neg (by simpa using Ne.symm hxy)] at hc
              simpa using hc
            exact List.mem_cons_of_mem _ (by
              have := ih last x hsRs (Or.inr hc')
              rwa [hpd] at this)

theorem partitionDedup_mem_right {l : List Nat} {x : Nat}
    (hs : List.Sorted (· ≤ ·) l) (hc : 2 ≤ l.count x) :
    x ∈ (partitionDedup l).2 := by
  cases l with
  | nil => simp at hc
  | cons a rest =>
      rcases hpd : pdGo a rest with ⟨L, R⟩
      rw [partitionDedup, hpd]
      show x ∈ R
      have hgoal : x ∈ (pdGo a rest).2 := by
        apply pdGo_mem_right rest a x hs
        by_cases hxa : x = a
        · refine Or.inl ⟨hxa, ?_⟩
          rw [← List.count_pos_iff]
          rw [List.count_cons] at hc
          have hb : (if a == x then 1 else 0) ≤ 1 := by
            split <;> omega
          omega
        · refine Or.inr ?_
          rw [List.count_cons, if_neg (by simpa using Ne.symm hxa)] at hc
          simpa using hc
      rwa [hpd] at hgoal

/-- C6: bundle registration fails loudly exactly on duplicates: for
every well-formed component registry and every bundle type (component
type sequence) not yet registered, (a) if the sequence has no duplicate
component type, registration succeeds and the stored `BundleInfo`
carries a sorted, duplicate-free component-id list; (b) if some
component type occurs more than once, registration aborts and the
diagnostic name list contains the name of every duplicated component
type. -/
theorem c6_duplicate_bundle_registration (c : Components) (b : Bundles)
    (ts : List CompType) (hwf : c.WF)
    (hfresh : lookup b.by_type ts = none) :
    (ts.Nodup → ∃ bi b' c', Bundles.get_mut_or_insert b ts c = .ok (bi, b', c') ∧
      List.Sorted (· ≤ ·) bi.component_ids ∧ bi.component_ids.Nodup) ∧
    ((∃ t, 2 ≤ ts.count t) → ∃ names,
      Bundles.get_mut_or_insert b ts c = .error names ∧
      ∀ t, 2 ≤ ts.count t → compTypeName t ∈ names) := by
  rcases hra : registerAll c ts with ⟨buf, c2⟩
  have hwf2 : c2.WF := by
    have h := registerAll_wf hwf ts
    rwa [hra] at h
  have hids : buf = ts.map (fun t => (lookup c2.by_type t).getD 0) := by
    have h := registerAll_ids c ts
    rw [hra] at h
    simpa using h
  have hlook : ∀ t ∈ ts, ∃ i, lookup c2.by_type t = some i := by
    intro t ht
    obtain ⟨i, hi⟩ := registerAll_registers (c := c) ht
    rw [hra] at hi
    exact ⟨i, hi⟩
  constructor
  · intro hnd
    have hbufnd : buf.Nodup := by
      rw [hids]
      refine hnd.map_on ?_
      intro x hx y hy hxy
      obtain ⟨i, hi⟩ := hlook x hx
      obtain ⟨j, hj⟩ := hlook y hy
      rw [hi, hj] at hxy
      simp only [Option.getD_some] at hxy
      exact hwf2.inj (x, i) (lookup_mem hi) (y, j) (lookup_mem hj)
        (by simpa using hxy)
    have hsortnd : (List.insertionSort (· ≤ ·) buf).Nodup :=
      ((List.perm_insertionSort (· ≤ ·) buf).nodup_iff).2 hbufnd
    have hdups : (partitionDedup (List.insertionSort (· ≤ ·) buf)).2 = [] := by
      rw [partitionDedup_of_nodup hsortnd]
    refine ⟨⟨b.bundle_infos.length, List.insertionSort (· ≤ ·) buf⟩,
      ⟨b.bundle_infos ++ [⟨b.bundle_infos.length,
        List.insertionSort (· ≤ ·) buf⟩],
        (ts, b.bundle_infos.length) :: b.by_type⟩, c2, ?_, ?_, ?_⟩
    · simp [Bundles.get_mut_or_insert, hfresh, hra, hdups]
    · exact List.sorted_insertionSort _ _
    · exact hsortnd
  · rintro ⟨t, ht⟩
    have hmemt : t ∈ ts := List.count_pos_iff.1 (by omega)
    obtain ⟨i, hi⟩ := hlook t hmemt
    have hfi : ∀ u ∈ ts, 2 ≤ ts.count u →
        ∃ j, lookup c2.by_type u = some j ∧
          j ∈ (partitionDedup (List.insertionSort (· ≤ ·) buf)).2 := by
      intro u hu hcu
      obtain ⟨j, hj⟩ := hlook u hu
      refine ⟨j, hj, ?_⟩
      have hle := count_le_count_map
        (fun t => (lookup c2.by_type t).getD 0) ts u
      rw [← hids, hj] at hle
      simp only [Option.getD_some] at hle
      have hcb : 2 ≤ buf.count j := le_trans hcu hle
      have hcs : 2 ≤ (List.insertionSort (· ≤ ·) buf).count j := by
        rw [(List.perm_insertionSort (· ≤ ·) buf).count_eq j]
        exact hcb
      exact partitionDedup_mem_right (List.sorted_insertionSort _ _) hcs
    obtain ⟨j, hj, hjd⟩ := hfi t hmemt ht
    have hne : ¬ (partitionDedup (List.insertionSort (· ≤ ·) buf)).2 = [] := by
      intro h0
      rw [h0] at hjd
      cases hjd
    refine ⟨((partitionDedup (List.insertionSort (· ≤ ·) buf)).2.dedup).map
      (fun k => (c2.get_component_info k).name), ?_, ?_⟩
    · simp [Bundles.get_mut_or_insert, hfresh, hra, hne]
    · intro u hcu
      have hmemu : u ∈ ts := List.count_pos_iff.1 (by omega)
      obtain ⟨k, hk, hkd⟩ := hfi u hmemu hcu
      have hname : (c2.get_component_info k).name = compTypeName u :=
        (hwf2.dom (u, k) (lookup_mem hk)).2
      exact List.mem_map.2 ⟨k, List.mem_dedup.2 hkd, hname⟩

/-- C6 witness: the duplicate bundle `[0, 0]` aborts naming component 0;
the clean bundle `[3, 1, 2]` registers with a sorted duplicate-free id
list. -/
theorem c6_duplicate_bundle_registration_witness :
    (∃ bi b' c', Bundles.get_mut_or_insert ⟨[], []⟩ [3, 1, 2] ⟨[], []⟩
        = .ok (bi, b', c') ∧
      List.Sorted (· ≤ ·) bi.component_ids ∧ bi.component_ids.Nodup) ∧
    (∃ names, Bundles.get_mut_or_insert ⟨[], []⟩ [0, 0] ⟨[], []⟩
        = .error names ∧
      ∀ t, 2 ≤ List.count t [0, 0] → compTypeName t ∈ names) := by
  have hwf : Components.WF ⟨[], []⟩ := by
    constructor
    · intro p hp
      cases hp
    · intro p hp
      cases hp
  constructor
  · exact (c6_duplicate_bundle_registration ⟨[], []⟩ ⟨[], []⟩ [3, 1, 2] hwf
      rfl).1 (by decide)
  · exact (c6_duplicate_bundle_registration ⟨[], []⟩ ⟨[], []⟩ [0, 0] hwf
      rfl).2 ⟨0, by decide⟩

/-! ## The allocator invariant (towards C7) -/

theorem aInv_symm_aux : ∀ {x y : Entity},
    x.index ≠ y.index → y.index ≠ x.index := fun h => h.symm

theorem allocReach_inv {s : Entities} {o f : List Entity}
    (h : AllocReach s o f) : AInv s o f := by
  induction h with
  | init =>
      constructor <;> simp
  | alloc hr halloc ih =>
      rename_i s o f e s'
      cases hfl : s.free_list with
      | nil =>
          rw [Entities.allocate, hfl] at halloc
          simp only [Option.some.injEq, Prod.mk.injEq] at halloc
          obtain ⟨rfl, rfl⟩ := halloc
          constructor
          · intro e' he'
            rcases List.mem_cons.1 he' with rfl | he'
            · refine ⟨by simp, ?_⟩
              show (1 : Nat) ≤ u32Max
              decide
            · obtain ⟨h1, h2⟩ := ih.ownedIdx e' he'
              exact ⟨by simpa using Nat.lt_succ_of_lt h1, h2⟩
          · intro e' he'
            cases he'
          · simp only [List.append_nil]
            refine List.pairwise_cons.2 ⟨?_, ?_⟩
            · intro b hb
              have hlt := (ih.ownedIdx b hb).1
              show s.meta.length ≠ b.index
              omega
            · exact ih.distinct.sublist (List.sublist_append_left _ _)
          · intro x hx
            obtain ⟨h1, h2⟩ := ih.freedLt x hx
            refine ⟨by simpa using Nat.lt_succ_of_lt h1, ?_⟩
            rw [List.getD_eq_getElem?_getD, List.getElem?_append_left h1]
            rw [List.getD_eq_getElem?_getD] at h2
            exact h2
          · intro x hx e' he'
            rcases List.mem_cons.1 he' with rfl | he'
            · intro hidx
              have h1 := (ih.freedLt x hx).1
              have hidx' : x.index = s.meta.length := hidx
              omega
            · exact ih.freedOwned x hx e' he'
          · intro x hx e' he'
            cases he'
      | cons p rest =>
          rw [Entities.allocate, hfl] at halloc
          by_cases hguard : p.generation + 1 ≤ u32Max
          · simp only [if_pos hguard, Option.some.injEq, Prod.mk.injEq]
              at halloc
            obtain ⟨rfl, rfl⟩ := halloc
            have hpmem : p ∈ s.free_list := by
              rw [hfl]
              exact List.mem_cons_self _ _
            have hperm : List.Pairwise (fun a b => a.index ≠ b.index)
                (p :: (o ++ rest)) := by
              have h0 : List.Pairwise (fun a b => a.index ≠ b.index)
                  (o ++ p :: rest) := by
                rw [← hfl]
                exact ih.distinct
              exact (List.perm_middle.pairwise_iff aInv_symm_aux).1 h0
            obtain ⟨hhd, htl⟩ := List.pairwise_cons.1 hperm
            constructor
            · intro e' he'
              rcases List.mem_cons.1 he' with rfl | he'
              · exact ⟨ih.freeIdx p hpmem, hguard⟩
              · exact ih.ownedIdx e' he'
            · intro e' he'
              exact ih.freeIdx e'
                (by rw [hfl]; exact List.mem_cons_of_mem _ he')
            · rw [List.cons_append]
              refine List.pairwise_cons.2 ⟨?_, htl⟩
              intro b hb
              show p.index ≠ b.index
              exact hhd b hb
            · intro x hx
              exact ih.freedLt x hx
            · intro x hx e' he'
              rcases List.mem_cons.1 he' with rfl | he'
              · intro hidx
                have hle := ih.freedFree x hx p hpmem hidx
                show x.generation < p.generation + 1
                omega
              · exact ih.freedOwned x hx e' he'
            · intro x hx e' he'
              exact ih.freedFree x hx e'
                (by rw [hfl]; exact List.mem_cons_of_mem _ he')
          · simp [if_neg hguard] at halloc
  | setLoc hr hmem hset ih =>
      rename_i s o f e l s'
      rw [Entities.set_location] at hset
      by_cases hidx : e.index < s.meta.length
      · rw [if_pos hidx] at hset
        injection hset with hset
        subst hset
        constructor
        · intro e' he'
          obtain ⟨h1, h2⟩ := ih.ownedIdx e' he'
          exact ⟨by simpa using h1, h2⟩
        · intro e' he'
          exact (by simpa using ih.freeIdx e' he')
        · exact ih.distinct
        · intro x hx
          obtain ⟨h1, h2⟩ := ih.freedLt x hx
          refine ⟨by simpa using h1, ?_⟩
          by_cases hxe : x.index = e.index
          · rw [List.getD_eq_getElem?_getD, hxe, List.getElem?_set_self hidx]
            exact Or.inr (ih.freedOwned x hx e hmem hxe)
          · rw [List.getD_eq_getElem?_getD,
              List.getElem?_set_ne (fun hh => hxe hh.symm)]
            rw [List.getD_eq_getElem?_getD] at h2
            exact h2
        · exact ih.freedOwned
        · exact ih.freedFree
      · rw [if_neg hidx] at hset
        cases hset
  | free hr hmem hfree ih =>
      rename_i s o f e s' pushed
      cases hm : s.meta.get? e.index with
      | none =>
          rw [Entities.free, hm] at hfree
          exact Option.noConfusion hfree
      | some m =>
          rw [Entities.free, hm] at hfree
          by_cases hgen : m.generation = e.generation
          · simp only [if_pos hgen, Option.some.injEq, Prod.mk.injEq]
              at hfree
            obtain ⟨rfl, rfl⟩ := hfree
            rw [if_pos rfl]
            have heidx : e.index < s.meta.length := (ih.ownedIdx e hmem).1
            have hpo : List.Pairwise (fun a b => a.index ≠ b.index)
                (e :: (o.erase e ++ s.free_list)) := by
              have hp2 : List.Perm (o ++ s.free_list)
                  ((e :: o.erase e) ++ s.free_list) :=
                (List.perm_cons_erase hmem).append_right _
              have hstep := (hp2.pairwise_iff aInv_symm_aux).1 ih.distinct
              simpa using hstep
            obtain ⟨hhd, htl⟩ := List.pairwise_cons.1 hpo
            constructor
            · intro e' he'
              obtain ⟨h1, h2⟩ := ih.ownedIdx e' (List.mem_of_mem_erase he')
              exact ⟨by simpa using h1, h2⟩
            · intro e' he'
              rcases List.mem_cons.1 he' with rfl | he'
              · simpa using heidx
              · simpa using ih.freeIdx e' he'
            · refine (List.perm_middle.pairwise_iff aInv_symm_aux).2 ?_
              exact List.pairwise_cons.2 ⟨hhd, htl⟩
            · intro x hx
              rcases List.mem_cons.1 hx with rfl | hx
              · refine ⟨by simpa using heidx, ?_⟩
                rw [List.getD_eq_getElem?_getD, List.getElem?_set_self heidx]
                exact Or.inl rfl
              · obtain ⟨h1, h2⟩ := ih.freedLt x hx
                refine ⟨by simpa using h1, ?_⟩
                by_cases hxe : x.index = e.index
                · rw [List.getD_eq_getElem?_getD, hxe,
                    List.getElem?_set_self heidx]
                  exact Or.inl rfl
                · rw [List.getD_eq_getElem?_getD,
                    List.getElem?_set_ne (fun hh => hxe hh.symm)]
                  rw [List.getD_eq_getElem?_getD] at h2
                  exact h2
            · intro x hx e' he'
              have he'o : e' ∈ o := List.mem_of_mem_erase he'
              rcases List.mem_cons.1 hx with rfl | hx
              · intro hidx
                exact absurd hidx (hhd e' (List.mem_append_left _ he'))
              · exact ih.freedOwned x hx e' he'o
            · intro x hx e' he' hidx
              rcases List.mem_cons.1 hx with hxe | hxf
              · rcases List.mem_cons.1 he' with he'e | he'f
                · rw [hxe, he'e]
                · have hcross : e.index ≠ e'.index :=
                    (List.pairwise_append.1 ih.distinct).2.2 e hmem e' he'f
                  rw [hxe] at hidx
                  exact absurd hidx hcross
              · rcases List.mem_cons.1 he' with he'e | he'f
                · rw [he'e] at hidx ⊢
                  exact Nat.le_of_lt (ih.freedOwned x hxf e hmem hidx)
                · exact ih.freedFree x hxf e' he'f hidx
          · by_cases hlt : e.generation < m.generation
            · simp only [if_neg hgen, if_pos hlt, Option.some.injEq,
                Prod.mk.injEq] at hfree
              obtain ⟨rfl, rfl⟩ := hfree
              rw [if_neg Bool.false_ne_true]
              have hsub : List.Sublist (o.erase e ++ s.free_list)
                  (o ++ s.free_list) :=
                (List.erase_sublist _ _).append_right _
              constructor
              · intro e' he'
                exact ih.ownedIdx e' (List.mem_of_mem_erase he')
              · exact ih.freeIdx
              · exact ih.distinct.sublist hsub
              · exact ih.freedLt
              · intro x hx e' he'
                exact ih.freedOwned x hx e' (List.mem_of_mem_erase he')
              · exact ih.freedFree
            · simp [if_neg hgen, if_neg hlt] at hfree

theorem reach_freed_slot0 : ∀ g : Nat, 1 ≤ g → g ≤ u32Max →
    ∃ f, AllocReach ⟨[EntityMeta.EMPTY], [⟨0, g⟩]⟩ [] f ∧
      (⟨0, g⟩ : Entity) ∈ f := by
  intro g
  induction g with
  | zero =>
      intro h1 _
      exact absurd h1 (by decide)
  | succ n ih =>
      intro _ h2
      by_cases hn : n = 0
      · subst hn
        refine ⟨[⟨0, 1⟩], ?_, List.mem_singleton_self _⟩
        have s1 : AllocReach ⟨[EntityMeta.EMPTY], []⟩ [⟨0, 1⟩] [] :=
          AllocReach.alloc AllocReach.init (by decide)
        have s2 : AllocReach ⟨[⟨1, EntityLocation.INVALID⟩], []⟩ [⟨0, 1⟩] [] :=
          AllocReach.setLoc (l := EntityLocation.INVALID) s1
            (List.mem_singleton_self _) (by decide)
        have s3 := AllocReach.free s2 (List.mem_singleton_self _)
          (show Entities.free ⟨[⟨1, EntityLocation.INVALID⟩], []⟩ ⟨0, 1⟩
            = some (⟨[EntityMeta.EMPTY], [⟨0, 1⟩]⟩, true) by decide)
        simpa using s3
      · obtain ⟨f, hf, hmem⟩ := ih (by omega) (by omega)
        refine ⟨⟨0, n + 1⟩ :: f, ?_, List.mem_cons_self _ _⟩
        have s1 : AllocReach ⟨[EntityMeta.EMPTY], []⟩ [⟨0, n + 1⟩] f := by
          refine AllocReach.alloc hf ?_
          rw [Entities.allocate]
          simp only [if_pos h2]
        have s2 : AllocReach ⟨[⟨n + 1, EntityLocation.INVALID⟩], []⟩
            [⟨0, n + 1⟩] f := by
          refine AllocReach.setLoc (l := EntityLocation.INVALID) s1
            (List.mem_singleton_self _) ?_
          rw [Entities.set_location]
          simp
        have s3 := AllocReach.free s2 (List.mem_singleton_self _)
          (show Entities.free ⟨[⟨n + 1, EntityLocation.INVALID⟩], []⟩
              ⟨0, n + 1⟩
            = some (⟨[EntityMeta.EMPTY], [⟨0, n + 1⟩]⟩, true) by
              rw [Entities.free]
              simp [EntityMeta.EMPTY])
        simpa using s3

/-- C7 counterexample: the claim fails as stated.  The allocator can
reach (by 3·(2^32−1) operations on one slot) a state whose free list
holds the handle with the `INVALID` sentinel generation `2^32 − 1`: that
handle was returned by `allocate` and has been freed, yet
`get_location` on it returns `Some` (the empty slot's sentinel
generation equals the handle's generation), so a stale handle
resolves. -/
theorem c7_counterexample :
    ∃ f, AllocReach ⟨[EntityMeta.EMPTY], [⟨0, u32Max⟩]⟩ [] f ∧
      (⟨0, u32Max⟩ : Entity) ∈ f ∧
      Entities.get_location ⟨[EntityMeta.EMPTY], [⟨0, u32Max⟩]⟩ ⟨0, u32Max⟩
        = .ok (some EntityLocation.INVALID) := by
  obtain ⟨f, hf, hm⟩ := reach_freed_slot0 u32Max (by decide) (Nat.le_refl _)
  exact ⟨f, hf, hm, by decide⟩

/-- C7 (amended): in every reachable allocator state, every freed handle
whose generation is below the `INVALID` sentinel `2^32 − 1` fails to
resolve — `get_location` returns `None` without tripping its assert —
and every handle currently held for the same index carries a strictly
greater generation (so reuse strictly increases generations); only a
freed handle that itself carries the sentinel generation can resolve
again. -/
theorem c7_stale_handles_never_resolve {s : Entities} {o f : List Entity}
    (hr : AllocReach s o f) (e : Entity) (he : e ∈ f)
    (hg : e.generation < u32Max) :
    Entities.get_location s e = .ok none ∧
    ∀ e' ∈ o, e'.index = e.index → e.generation < e'.generation := by
  have inv := allocReach_inv hr
  obtain ⟨hidx, hdom⟩ := inv.freedLt e he
  constructor
  · rw [Entities.get_location]
    have hget : s.meta.get? e.index = some (s.meta.getD e.index default) := by
      rw [List.get?_eq_getElem?, List.getD_eq_getElem?_getD,
        List.getElem?_eq_getElem hidx]
      rfl
    rw [hget]
    have hltg : e.generation < (s.meta.getD e.index default).generation := by
      rcases hdom with hmax | hlt
      · rw [hmax]
        exact hg
      · exact hlt
    simp only [if_neg (Nat.ne_of_lt hltg), if_pos hltg]
  · intro e' he' hidx'
    exact inv.freedOwned e he e' he' hidx'.symm

/-- C7 witness: the freed handle `0v1` in the smallest reachable
freed-slot state does not resolve. -/
theorem c7_stale_handles_never_resolve_witness :
    Entities.get_location ⟨[EntityMeta.EMPTY], [⟨0, 1⟩]⟩ ⟨0, 1⟩
      = .ok none := by
  have s1 : AllocReach ⟨[EntityMeta.EMPTY], []⟩ [⟨0, 1⟩] [] :=
    AllocReach.alloc AllocReach.init (by decide)
  have s2 : AllocReach ⟨[⟨1, EntityLocation.INVALID⟩], []⟩ [⟨0, 1⟩] [] :=
    AllocReach.setLoc (l := EntityLocation.INVALID) s1
      (List.mem_singleton_self _) (by decide)
  have s3 := AllocReach.free s2 (List.mem_singleton_self _)
    (show Entities.free ⟨[⟨1, EntityLocation.INVALID⟩], []⟩ ⟨0, 1⟩
      = some (⟨[EntityMeta.EMPTY], [⟨0, 1⟩]⟩, true) by decide)
  have hreach : AllocReach ⟨[EntityMeta.EMPTY], [⟨0, 1⟩]⟩ [] [⟨0, 1⟩] := by
    simpa using s3
  exact (c7_stale_handles_never_resolve hreach ⟨0, 1⟩
    (List.mem_singleton_self _) (by decide)).1
